import Mathlib

/-!
Verification of the zero-copy buffer component of the
Python-Matrix-Reloaded notebooks (`Day1_session4_topic1_usecases.ipynb`):
the in-place byte reversal `reverse_inplace`, the packet assembler
`build_packet`, and the binary-header field parser (the spec's
`parseFields`, realised in the notebook by `struct.unpack_from`).

Bytes are modelled as natural numbers; buffers and byte sources as
`List Nat`.  The notebook's `memoryview` slice assignment and two-cursor
swap are embedded as pure list transformations that return the mutated
buffer.
-/

/-- The simultaneous assignment `mv[left], mv[right] = mv[right], mv[left]`
from `reverse_inplace`: both cells are read first, then written. -/
def swapPy (l : List Nat) (i j : Nat) : List Nat :=
  (l.set i (l.getD j 0)).set j (l.getD i 0)

/-- The `while left < right` loop of `reverse_inplace`: swap the cells at
the two cursors, move `left` up and `right` down, stop when they meet or
cross. -/
def reverseLoop (l : List Nat) (left right : Nat) : List Nat :=
  if left < right then
    reverseLoop (swapPy l left right) (left + 1) (right - 1)
  else l
termination_by right - left
decreasing_by simp_wf; omega

/-- `reverse_inplace(data)`: run the two-cursor loop from `0` and
`len(data) - 1`; the returned list is the buffer's content after the
call. -/
def reverse_inplace (l : List Nat) : List Nat :=
  reverseLoop l 0 (l.length - 1)

/-- Fuel-indexed version of the `reverse_inplace` loop, used to state
termination: `none` means the fuel ran out before the cursors met. -/
def reverseLoopFuel : Nat → List Nat → Nat → Nat → Option (List Nat)
  | 0, l, left, right => if left < right then none else some l
  | f + 1, l, left, right =>
    if left < right then
      reverseLoopFuel f (swapPy l left right) (left + 1) (right - 1)
    else some l

/-- `total_size = sum(len(p) for p in parts)` in `build_packet`. -/
def sumLens (parts : List (List Nat)) : Nat :=
  (parts.map List.length).sum

/-- The slice assignment `mv[offset:offset + part_length] = part` of
`build_packet`, on a buffer large enough to hold the part. -/
def writeSlice (buf : List Nat) (offset : Nat) (part : List Nat) : List Nat :=
  buf.take offset ++ part ++ buf.drop (offset + part.length)

/-- The `for part in parts` copy loop of `build_packet`: write each part
at the current offset, then advance the offset by the part's length. -/
def packLoop (parts : List (List Nat)) (buf : List Nat) (offset : Nat) : List Nat :=
  match parts with
  | [] => buf
  | p :: ps => packLoop ps (writeSlice buf offset p) (offset + p.length)

/-- `build_packet(parts)`: pre-allocate `bytearray(total_size)` (all
zeros) and copy every part into place. -/
def build_packet (parts : List (List Nat)) : List Nat :=
  packLoop parts (List.replicate (sumLens parts) 0) 0

/- ### Core lemmas about the embedded operations -/

theorem swapPy_length (l : List Nat) (i j : Nat) :
    (swapPy l i j).length = l.length := by
  simp [swapPy]

theorem writeSlice_length (buf : List Nat) (offset : Nat) (part : List Nat)
    (h : offset + part.length ≤ buf.length) :
    (writeSlice buf offset part).length = buf.length := by
  simp only [writeSlice, List.length_append, List.length_take, List.length_drop]
  omega

theorem swapPy_getElem?_fst (l : List Nat) (i j : Nat) (hi : i < l.length)
    (hj : j < l.length) (hij : i ≠ j) : (swapPy l i j)[i]? = l[j]? := by
  unfold swapPy
  rw [List.getElem?_set_ne (fun h => hij h.symm), List.getElem?_set_self hi]
  simp [List.getElem?_eq_getElem hj]

theorem swapPy_getElem?_snd (l : List Nat) (i j : Nat) (hi : i < l.length)
    (hj : j < l.length) : (swapPy l i j)[j]? = l[i]? := by
  unfold swapPy
  rw [List.getElem?_set_self (by simpa using hj)]
  simp [List.getElem?_eq_getElem hi]

theorem swapPy_getElem?_other (l : List Nat) (i j k : Nat) (hki : k ≠ i)
    (hkj : k ≠ j) : (swapPy l i j)[k]? = l[k]? := by
  unfold swapPy
  rw [List.getElem?_set_ne (fun h => hkj h.symm),
    List.getElem?_set_ne (fun h => hki h.symm)]

/-- Index-wise description of the `reverse_inplace` loop: indices inside
`[left, right]` are mirrored around the segment's centre, indices outside
are untouched. -/
theorem reverseLoop_getElem? (n : Nat) :
    ∀ (l : List Nat) (left right i : Nat), right - left ≤ n → right < l.length →
      (reverseLoop l left right)[i]? =
        if left ≤ i ∧ i ≤ right then l[left + right - i]? else l[i]? := by
  induction n with
  | zero =>
    intro l left right i hn _
    rw [reverseLoop, if_neg (by omega : ¬ left < right)]
    by_cases hc : left ≤ i ∧ i ≤ right
    · rw [if_pos hc, (by omega : left + right - i = i)]
    · rw [if_neg hc]
  | succ n ih =>
    intro l left right i hn hr
    rw [reverseLoop]
    by_cases hlr : left < right
    · rw [if_pos hlr]
      have hlen : (swapPy l left right).length = l.length := swapPy_length ..
      rw [ih _ _ _ i (by omega) (by omega)]
      by_cases h1 : left + 1 ≤ i ∧ i ≤ right - 1
      · rw [if_pos h1, (by omega : left + 1 + (right - 1) - i = left + right - i),
          swapPy_getElem?_other l left right _ (by omega) (by omega),
          if_pos (by omega : left ≤ i ∧ i ≤ right)]
      · rw [if_neg h1]
        by_cases hil : i = left
        · subst hil
          rw [swapPy_getElem?_fst l i right (by omega) hr (by omega),
            if_pos (by omega : i ≤ i ∧ i ≤ right), (by omega : i + right - i = right)]
        · by_cases hir : i = right
          · subst hir
            rw [swapPy_getElem?_snd l left i (by omega) hr,
              if_pos (by omega : left ≤ i ∧ i ≤ i), (by omega : left + i - i = left)]
          · rw [swapPy_getElem?_other l left right i hil hir,
              if_neg (by omega : ¬ (left ≤ i ∧ i ≤ right))]
    · rw [if_neg hlr]
      by_cases hc : left ≤ i ∧ i ≤ right
      · rw [if_pos hc, (by omega : left + right - i = i)]
      · rw [if_neg hc]

/-- `reverse_inplace` computes exactly the list reversal. -/
theorem reverse_inplace_eq_reverse (l : List Nat) :
    reverse_inplace l = l.reverse := by
  cases l with
  | nil =>
    rw [reverse_inplace, reverseLoop]
    simp
  | cons a as =>
    apply List.ext_getElem?
    intro i
    have hlen : 0 < (a :: as).length := by simp
    rw [reverse_inplace,
      reverseLoop_getElem? ((a :: as).length) _ _ _ _ (by omega) (by omega)]
    by_cases hi : i < (a :: as).length
    · rw [if_pos (by omega), (by omega : 0 + ((a :: as).length - 1) - i = (a :: as).length - 1 - i),
        List.getElem?_reverse hi]
    · rw [if_neg (by omega), List.getElem?_eq_none (by omega),
        List.getElem?_eq_none (by simpa using (by omega : (a :: as).length ≤ i))]

theorem reverse_inplace_length (l : List Nat) :
    (reverse_inplace l).length = l.length := by
  rw [reverse_inplace_eq_reverse, List.length_reverse]

theorem writeSlice_take (buf : List Nat) (offset : Nat) (part : List Nat)
    (h : offset + part.length ≤ buf.length) :
    (writeSlice buf offset part).take (offset + part.length) =
      buf.take offset ++ part := by
  have hA : (buf.take offset ++ part).length = offset + part.length := by
    simp only [List.length_append, List.length_take]
    omega
  unfold writeSlice
  rw [(by simp [hA] : offset + part.length = (buf.take offset ++ part).length + 0),
    List.take_append, List.take_zero, List.append_nil]

theorem writeSlice_drop (buf : List Nat) (offset : Nat) (part : List Nat)
    (h : offset + part.length ≤ buf.length) (k : Nat)
    (hk : offset + part.length ≤ k) :
    (writeSlice buf offset part).drop k = buf.drop k := by
  have hA : (buf.take offset ++ part).length = offset + part.length := by
    simp only [List.length_append, List.length_take]
    omega
  unfold writeSlice
  conv_lhs =>
    rw [(by rw [hA]; omega :
      k = (buf.take offset ++ part).length + (k - (offset + part.length))),
      List.drop_append, List.drop_drop]
  rw [(by omega : offset + part.length + (k - (offset + part.length)) = k)]

/-- Correctness of the copy loop of `build_packet`: when the remaining
parts fit into the buffer starting at `offset`, the loop overwrites the
region `[offset, offset + sumLens parts)` with the concatenation of the
parts and leaves the rest of the buffer alone. -/
theorem packLoop_eq :
    ∀ (parts : List (List Nat)) (buf : List Nat) (offset : Nat),
      offset + sumLens parts ≤ buf.length →
      packLoop parts buf offset =
        buf.take offset ++ parts.flatten ++ buf.drop (offset + sumLens parts) := by
  intro parts
  induction parts with
  | nil =>
    intro buf offset h
    simp [packLoop, sumLens]
  | cons p ps ih =>
    intro buf offset h
    have hsum : sumLens (p :: ps) = p.length + sumLens ps := by
      simp [sumLens]
    have hfit : offset + p.length ≤ buf.length := by
      rw [hsum] at h; omega
    have hlen' : (writeSlice buf offset p).length = buf.length :=
      writeSlice_length _ _ _ hfit
    rw [packLoop, ih _ _ (by rw [hlen']; omega),
      writeSlice_take _ _ _ hfit,
      writeSlice_drop _ _ _ hfit _ (by omega),
      List.flatten_cons, hsum]
    rw [(by omega : offset + p.length + sumLens ps = offset + (p.length + sumLens ps))]
    simp [List.append_assoc]

/-- `build_packet` returns exactly the concatenation of its parts. -/
theorem build_packet_eq_flatten (parts : List (List Nat)) :
    build_packet parts = parts.flatten := by
  have hlen : (List.replicate (sumLens parts) 0 : List Nat).length = sumLens parts := by
    simp
  rw [build_packet, packLoop_eq parts _ 0 (by rw [hlen]; omega)]
  simp

theorem build_packet_length (parts : List (List Nat)) :
    (build_packet parts).length = sumLens parts := by
  rw [build_packet_eq_flatten]
  simp [sumLens]

/-- Fuel equal to the initial cursor distance `right - left` always
suffices: each iteration shrinks the distance by two, so the loop exits
before the fuel runs out. -/
theorem reverseLoopFuel_adequate :
    ∀ (f : Nat) (l : List Nat) (left right : Nat), right - left ≤ f →
      reverseLoopFuel f l left right = some (reverseLoop l left right) := by
  intro f
  induction f with
  | zero =>
    intro l left right h
    rw [reverseLoopFuel, reverseLoop, if_neg (by omega : ¬ left < right),
      if_neg (by omega : ¬ left < right)]
  | succ f ih =>
    intro l left right h
    rw [reverseLoopFuel, reverseLoop]
    by_cases hlr : left < right
    · rw [if_pos hlr, if_pos hlr, ih _ _ _ (by omega)]
    · rw [if_neg hlr, if_neg hlr]

/- ### The field parser

The notebook parses a binary header with the single inline call
`struct.unpack_from(">IHH", mv_head, 0)`; the spec's general `parseFields`
operation does not exist as repository code.  It is therefore modelled
from the spec below. -/

/-- Errors of `parseFields` as named by the spec (section 7). -/
inductive ParseErr where
  | OutOfBounds
  | UnsupportedEncoding
deriving DecidableEq, Repr

/-- Big-endian unsigned decoding of a byte slice, written as the Horner
loop a decoder executes: accumulate `acc * 256 + byte` left to right. -/
def beDecode (bytes : List Nat) : Nat :=
  bytes.foldl (fun acc b => acc * 256 + b) 0

/-- A field layout entry: field name and byte width (the encoding is
fixed-width unsigned big-endian, the spec's default). -/
def sumWidths (L : List (String × Nat)) : Nat :=
  (L.map (fun p => p.2)).sum

/-- Modelled from the spec: the per-field walk of `parseFields`
(section 4.1) — the repository only contains the inline call
`struct.unpack_from(">IHH", mv_head, 0)`, not a general parser.  Walk the
layout in declared order, decode each field's bytes at the running
cursor as a big-endian unsigned integer, advance the cursor by the
field's width; reject widths outside {1, 2, 4, 8} with
`UnsupportedEncoding`. -/
def parseGo (B : List Nat) : Nat → List (String × Nat) → Except ParseErr (List (String × Nat))
  | _, [] => .ok []
  | cursor, (name, w) :: rest =>
    if w = 1 ∨ w = 2 ∨ w = 4 ∨ w = 8 then
      match parseGo B (cursor + w) rest with
      | .ok vs => .ok ((name, beDecode ((B.drop cursor).take w)) :: vs)
      | .error e => .error e
    else .error .UnsupportedEncoding

/-- Modelled from the spec: `parseFields(buffer, layout, offset)`
(section 4.1) — the repository only contains the inline call
`struct.unpack_from(">IHH", mv_head, 0)`, not a general parser.  Check
the precondition `offset + Σ widths(layout) ≤ length(buffer)` first,
failing with `OutOfBounds`, then decode the fields. -/
def parseFields (B : List Nat) (L : List (String × Nat)) (offset : Nat) :
    Except ParseErr (List (String × Nat)) :=
  if offset + sumWidths L ≤ B.length then parseGo B offset L
  else .error .OutOfBounds

/-- Positional (place-value) big-endian unsigned value of a byte slice:
the first byte is the most significant. -/
def bigEndianVal : List Nat → Nat
  | [] => 0
  | b :: rest => b * 256 ^ rest.length + bigEndianVal rest

/-- Follows the spec's words (section 4.1 postcondition): one entry per
field name, in layout order, whose value is the big-endian unsigned
interpretation of exactly that field's bytes. -/
def specDecode (B : List Nat) : Nat → List (String × Nat) → List (String × Nat)
  | _, [] => []
  | offset, (name, w) :: rest =>
    (name, bigEndianVal ((B.drop offset).take w)) :: specDecode B (offset + w) rest

theorem sumWidths_cons (p : String × Nat) (L : List (String × Nat)) :
    sumWidths (p :: L) = p.2 + sumWidths L := by
  simp [sumWidths]

/-- The field walk itself never reports `OutOfBounds`; that error comes
only from the precondition check in `parseFields`. -/
theorem parseGo_ne_oob (B : List Nat) :
    ∀ (L : List (String × Nat)) (c : Nat),
      parseGo B c L ≠ .error .OutOfBounds := by
  intro L
  induction L with
  | nil =>
    intro c h
    simp [parseGo] at h
  | cons p ps ih =>
    intro c h
    rcases p with ⟨name, w⟩
    simp only [parseGo] at h
    by_cases hw : w = 1 ∨ w = 2 ∨ w = 4 ∨ w = 8
    · rw [if_pos hw] at h
      rcases hgo : parseGo B (c + w) ps with e | vs
      · rw [hgo] at h
        simp at h
        exact ih (c + w) (by rw [hgo, h])
      · rw [hgo] at h
        simp at h
    · rw [if_neg hw] at h
      simp at h

theorem beDecode_foldl (bs : List Nat) :
    ∀ acc : Nat,
      bs.foldl (fun acc b => acc * 256 + b) acc =
        acc * 256 ^ bs.length + bigEndianVal bs := by
  induction bs with
  | nil =>
    intro acc
    simp [bigEndianVal]
  | cons b rest ih =>
    intro acc
    rw [List.foldl_cons, ih (acc * 256 + b)]
    simp only [bigEndianVal, List.length_cons, pow_succ]
    ring

/-- The Horner-style decoding loop computes the positional big-endian
value. -/
theorem beDecode_eq_bigEndianVal (bs : List Nat) :
    beDecode bs = bigEndianVal bs := by
  rw [beDecode, beDecode_foldl]
  simp

/-- When every declared width is supported, the field walk succeeds and
produces exactly the spec's decoded field list. -/
theorem parseGo_eq_specDecode (B : List Nat) :
    ∀ (L : List (String × Nat)) (c : Nat),
      (∀ p ∈ L, p.2 = 1 ∨ p.2 = 2 ∨ p.2 = 4 ∨ p.2 = 8) →
      parseGo B c L = .ok (specDecode B c L) := by
  intro L
  induction L with
  | nil =>
    intro c _
    simp [parseGo, specDecode]
  | cons p ps ih =>
    intro c hw
    rcases p with ⟨name, w⟩
    have hwp : w = 1 ∨ w = 2 ∨ w = 4 ∨ w = 8 := hw (name, w) (by simp)
    rw [parseGo, if_pos hwp, ih (c + w) (fun q hq => hw q (by simp [hq]))]
    simp [specDecode, beDecode_eq_bigEndianVal]

theorem specDecode_names (B : List Nat) :
    ∀ (L : List (String × Nat)) (c : Nat),
      (specDecode B c L).map Prod.fst = L.map Prod.fst := by
  intro L
  induction L with
  | nil => intro c; simp [specDecode]
  | cons p ps ih =>
    intro c
    rcases p with ⟨name, w⟩
    simp [specDecode, ih]

/- ### Sources with reported lengths (spec's InvalidInput check) -/

/-- Modelled from the spec: a byte source together with the length it
reports at iteration time (section 4.1 Failure clause — `build_packet`
itself has no defensive check; in Python an ill-defined `len(p)` raises
before a length is ever produced).  A well-behaved source reports
`some n` with `n = bytes.length`; `none` stands for an ill-defined
length. -/
structure ByteSource where
  bytes : List Nat
  reported : Option Int
deriving DecidableEq, Repr

/-- A source's reported length is well-defined and non-negative. -/
def reportOk (s : ByteSource) : Bool :=
  match s.reported with
  | some n => decide (0 ≤ n)
  | none => false

/-- The error kind of `assemble` named by the spec (section 7). -/
inductive AsmErr where
  | InvalidInput
deriving DecidableEq, Repr

/-- Modelled from the spec: `assemble` (section 4.1) — `build_packet`
with the spec's defensive length check in front.  If every source
reports a well-defined, non-negative length, assemble the packet from
the sources' bytes; otherwise fail with `InvalidInput` before allocating
anything. -/
def assembleChecked (sources : List ByteSource) : Except AsmErr (List Nat) :=
  if sources.all reportOk then
    .ok (build_packet (sources.map (fun s => s.bytes)))
  else .error .InvalidInput

/-- State-passing form of `assemble`: the call's result paired with the
sources as the caller sees them after the call.  `build_packet` only
reads its parts (`len(p)` and the slice-assignment right-hand side), so
the sources come back exactly as they went in. -/
def assembleSt (sources : List ByteSource) :
    Except AsmErr (List Nat) × List ByteSource :=
  (assembleChecked sources, sources)

/-- State-passing form of `parseFields`: the call's result paired with
the buffer as the caller sees it after the call.  `struct.unpack_from`
only reads the memoryview, so the buffer comes back exactly as it went
in. -/
def parseFieldsSt (B : List Nat) (L : List (String × Nat)) (offset : Nat) :
    Except ParseErr (List (String × Nat)) × List Nat :=
  (parseFields B L offset, B)

/- ### Concrete data from the notebook's demonstrations -/

/-- The bytes of `b"HEAD"`. -/
def headBytes : List Nat := [72, 69, 65, 68]

/-- The bytes of `b"DATA"`. -/
def dataBytes : List Nat := [68, 65, 84, 65]

/-- The bytes of `b"TAIL"`. -/
def tailBytes : List Nat := [84, 65, 73, 76]

/-- The bytes of `b"abcdefghijklmnopqrstuvwxyz"`. -/
def alphabetBytes : List Nat :=
  [97, 98, 99, 100, 101, 102, 103, 104, 105, 106, 107, 108, 109,
   110, 111, 112, 113, 114, 115, 116, 117, 118, 119, 120, 121, 122]

/-- A 16-byte header whose first 8 bytes are `00 00 00 01 00 02 00 03`. -/
def headerBytes : List Nat :=
  [0, 0, 0, 1, 0, 2, 0, 3, 9, 9, 9, 9, 9, 9, 9, 9]

/-- The `">IHH"` layout of the notebook: a 4-byte unsigned int and two
2-byte unsigned shorts, big-endian. -/
def ihhLayout : List (String × Nat) :=
  [("magic", 4), ("major", 2), ("minor", 2)]

/- ### Claim theorems -/

/-- Claim C1: for every finite ordered sequence of byte sources,
`build_packet` returns a buffer whose bytes, read front-to-back, equal
the concatenation of the sources' bytes in input order, and whose length
is the sum of the sources' lengths; in particular on
`[b"HEAD", b"DATA", b"TAIL"]` it yields the 12-byte buffer
`HEADDATATAIL`. -/
theorem C1_assemble_concat :
    (∀ parts : List (List Nat),
      build_packet parts = parts.flatten ∧
      (build_packet parts).length = sumLens parts) ∧
    build_packet [headBytes, dataBytes, tailBytes] =
      [72, 69, 65, 68, 68, 65, 84, 65, 84, 65, 73, 76] ∧
    (build_packet [headBytes, dataBytes, tailBytes]).length = 12 := by
  refine ⟨fun parts => ⟨build_packet_eq_flatten parts, build_packet_length parts⟩,
    ?_, ?_⟩
  · rw [build_packet_eq_flatten]
    rfl
  · rw [build_packet_length]
    rfl

/-- Claim C7: `build_packet` applied to the empty sequence of sources
succeeds and returns a buffer of length zero. -/
theorem C7_assemble_empty :
    assembleChecked [] = .ok [] ∧
    build_packet [] = [] ∧ (build_packet []).length = 0 := by
  exact ⟨rfl, rfl, rfl⟩

/-- Claim C2: for every buffer, layout of fixed-width unsigned
big-endian fields, and offset satisfying the precondition, `parseFields`
returns exactly one entry per field name in layout order, each value
being the big-endian unsigned interpretation of that field's bytes
(given by `specDecode`). -/
theorem C2_parseFields_decodes (B : List Nat) (L : List (String × Nat))
    (offset : Nat) (hb : offset + sumWidths L ≤ B.length)
    (hw : ∀ p ∈ L, p.2 = 1 ∨ p.2 = 2 ∨ p.2 = 4 ∨ p.2 = 8) :
    parseFields B L offset = .ok (specDecode B offset L) ∧
    (specDecode B offset L).map Prod.fst = L.map Prod.fst := by
  constructor
  · rw [parseFields, if_pos hb, parseGo_eq_specDecode B L offset hw]
  · exact specDecode_names B L offset

/-- Witness for C2: the notebook's 16-byte header with leading bytes
`00 00 00 01 00 02 00 03`, parsed at offset 0 with the `">IHH"` layout,
decodes to the integers 1, 2, 3. -/
theorem C2_parseFields_decodes_witness :
    (0 + sumWidths ihhLayout ≤ headerBytes.length) ∧
    (∀ p ∈ ihhLayout, p.2 = 1 ∨ p.2 = 2 ∨ p.2 = 4 ∨ p.2 = 8) ∧
    parseFields headerBytes ihhLayout 0 =
      .ok [("magic", 1), ("major", 2), ("minor", 3)] := by
  refine ⟨by decide, by decide, ?_⟩
  rw [(C2_parseFields_decodes headerBytes ihhLayout 0 (by decide) (by decide)).1]
  rfl

/-- Claim C3: `parseFields` fails with `OutOfBounds` exactly when
`offset + Σ widths(L) > length(B)`; at the exact boundary
`offset + Σ widths(L) = length(B)` the call succeeds (for supported
widths), and at `length(B) + 1` it fails. -/
theorem C3_parseFields_oob (B : List Nat) (L : List (String × Nat))
    (offset : Nat) :
    (parseFields B L offset = .error .OutOfBounds ↔
      B.length < offset + sumWidths L) ∧
    (offset + sumWidths L = B.length →
      (∀ p ∈ L, p.2 = 1 ∨ p.2 = 2 ∨ p.2 = 4 ∨ p.2 = 8) →
      parseFields B L offset = .ok (specDecode B offset L)) ∧
    (offset + sumWidths L = B.length + 1 →
      parseFields B L offset = .error .OutOfBounds) := by
  refine ⟨?_, ?_, ?_⟩
  · by_cases hb : offset + sumWidths L ≤ B.length
    · rw [parseFields, if_pos hb]
      constructor
      · intro h
        exact absurd h (parseGo_ne_oob B L offset)
      · intro h
        omega
    · rw [parseFields, if_neg hb]
      exact ⟨fun _ => by omega, fun _ => rfl⟩
  · intro hb hw
    rw [parseFields, if_pos (by omega), parseGo_eq_specDecode B L offset hw]
  · intro hb
    rw [parseFields, if_neg (by omega)]

/-- Witness for C3: on the 16-byte header and a 16-byte-wide layout,
offset 0 is the exact boundary and succeeds, while offset 1 exceeds the
buffer by one byte and fails with `OutOfBounds`. -/
theorem C3_parseFields_oob_witness :
    (0 + sumWidths [("a", 8), ("b", 8)] = headerBytes.length) ∧
    parseFields headerBytes [("a", 8), ("b", 8)] 0 =
      .ok (specDecode headerBytes 0 [("a", 8), ("b", 8)]) ∧
    (1 + sumWidths [("a", 8), ("b", 8)] = headerBytes.length + 1) ∧
    parseFields headerBytes [("a", 8), ("b", 8)] 1 =
      .error .OutOfBounds := by
  refine ⟨by decide, ?_, by decide, ?_⟩
  · exact (C3_parseFields_oob headerBytes [("a", 8), ("b", 8)] 0).2.1
      (by decide) (by decide)
  · exact (C3_parseFields_oob headerBytes [("a", 8), ("b", 8)] 1).2.2 (by decide)

/-- Claim C4: whenever some source reports a negative or otherwise
ill-defined length at iteration time, assemble fails with `InvalidInput`
rather than returning a buffer. -/
theorem C4_assemble_invalid (S : List ByteSource)
    (h : ∃ s ∈ S, reportOk s = false) :
    assembleChecked S = .error .InvalidInput := by
  rcases h with ⟨s, hs, hf⟩
  have hnot : ¬ (S.all reportOk = true) := by
    intro hall
    rw [List.all_eq_true] at hall
    rw [hall s hs] at hf
    cases hf
  rw [assembleChecked, if_neg hnot]

/-- Witness for C4: a single source reporting length `-1` makes
assemble fail with `InvalidInput`. -/
theorem C4_assemble_invalid_witness :
    (∃ s ∈ [ByteSource.mk [1, 2, 3] (some (-1))], reportOk s = false) ∧
    assembleChecked [ByteSource.mk [1, 2, 3] (some (-1))] =
      .error .InvalidInput := by
  refine ⟨⟨ByteSource.mk [1, 2, 3] (some (-1)), by simp, by decide⟩, ?_⟩
  exact C4_assemble_invalid _
    ⟨ByteSource.mk [1, 2, 3] (some (-1)), by simp, by decide⟩

/-- Claim C5: after `reverse_inplace` the buffer's content at index `i`
is the original content at index `length - 1 - i` and the length is
unchanged; concretely, on the bytes of `"abcdefghijklmnopqrstuvwxyz"`
the first 10 bytes afterwards read `"zyxwvutsrq"`. -/
theorem C5_reverse_content :
    (∀ l : List Nat,
      (reverse_inplace l).length = l.length ∧
      (∀ i, i < l.length →
        (reverse_inplace l).getD i 0 = l.getD (l.length - 1 - i) 0)) ∧
    (reverse_inplace alphabetBytes).take 10 =
      [122, 121, 120, 119, 118, 117, 116, 115, 114, 113] := by
  constructor
  · intro l
    refine ⟨reverse_inplace_length l, ?_⟩
    intro i hi
    rw [reverse_inplace_eq_reverse, List.getD_eq_getElem?_getD,
      List.getD_eq_getElem?_getD, List.getElem?_reverse hi]
  · rw [reverse_inplace_eq_reverse]
    rfl

/-- Witness for C5: on the buffer `[4, 5, 6]`, index 2 of the reversed
buffer holds the original byte at index 0. -/
theorem C5_reverse_content_witness :
    (2 < ([4, 5, 6] : List Nat).length) ∧
    (reverse_inplace [4, 5, 6]).getD 2 0 =
      ([4, 5, 6] : List Nat).getD (([4, 5, 6] : List Nat).length - 1 - 2) 0 :=
  ⟨by decide, (C5_reverse_content.1 [4, 5, 6]).2 2 (by decide)⟩

/-- Claim C6: `reverse_inplace` applied twice restores the original
buffer (involution), and applied once to a buffer of length 0 or 1 it is
a no-op. -/
theorem C6_reverse_involution :
    ∀ l : List Nat,
      reverse_inplace (reverse_inplace l) = l ∧
      (l.length ≤ 1 → reverse_inplace l = l) := by
  intro l
  constructor
  · rw [reverse_inplace_eq_reverse, reverse_inplace_eq_reverse,
      List.reverse_reverse]
  · intro h
    rw [reverse_inplace_eq_reverse]
    rcases l with _ | ⟨a, _ | ⟨b, t⟩⟩
    · rfl
    · rfl
    · simp at h

/-- Witness for C6: double reversal restores `[7, 8]`, and the
length-1 buffer `[9]` is untouched by a single reversal. -/
theorem C6_reverse_involution_witness :
    reverse_inplace (reverse_inplace [7, 8]) = [7, 8] ∧
    (([9] : List Nat).length ≤ 1) ∧ reverse_inplace [9] = [9] :=
  ⟨(C6_reverse_involution [7, 8]).1, by decide,
    (C6_reverse_involution [9]).2 (by decide)⟩

/-- Claim C8: when a call fails, no caller-visible state has been
mutated at the point the error surfaces: a failing assemble returns no
buffer and hands the sources back unchanged, and `parseFields` always
hands its input buffer back unchanged. -/
theorem C8_atomic_failure (S : List ByteSource) (B : List Nat)
    (L : List (String × Nat)) (offset : Nat) (e : AsmErr)
    (hfail : assembleChecked S = .error e) :
    (assembleSt S).2 = S ∧ (∀ buf, assembleChecked S ≠ .ok buf) ∧
    (parseFieldsSt B L offset).2 = B := by
  refine ⟨rfl, ?_, rfl⟩
  intro buf hok
  rw [hfail] at hok
  cases hok

/-- Witness for C8: a source with an ill-defined length makes assemble
fail; the sources come back unchanged and no buffer is produced. -/
theorem C8_atomic_failure_witness :
    (assembleChecked [ByteSource.mk [1, 2] none] = .error .InvalidInput) ∧
    (assembleSt [ByteSource.mk [1, 2] none]).2 = [ByteSource.mk [1, 2] none] ∧
    (∀ buf, assembleChecked [ByteSource.mk [1, 2] none] ≠ .ok buf) ∧
    (parseFieldsSt headerBytes ihhLayout 0).2 = headerBytes :=
  ⟨rfl, C8_atomic_failure [ByteSource.mk [1, 2] none] headerBytes ihhLayout 0
    .InvalidInput rfl⟩

/-- Claim C9: a call to assemble leaves the byte content of every
source exactly as it was before the call; only the result buffer is
new. -/
theorem C9_assemble_frame (S : List ByteSource) :
    (assembleSt S).2 = S ∧
    ((assembleSt S).2).map (fun s => s.bytes) = S.map (fun s => s.bytes) :=
  ⟨rfl, rfl⟩

/-- Claim C10: the `reverse_inplace` loop terminates on every finite
buffer: each iteration moves `left` up by one and `right` down by one,
so the measure `right - left` strictly decreases and fuel equal to the
initial distance always suffices — the fuelled loop exits with the
loop's result instead of running out of fuel. -/
theorem C10_reverse_terminates (f : Nat) (l : List Nat) (left right : Nat)
    (h : right - left ≤ f) :
    reverseLoopFuel f l left right = some (reverseLoop l left right) :=
  reverseLoopFuel_adequate f l left right h

/-- Witness for C10: the loop on the 26-byte alphabet buffer finishes
within 25 steps of fuel. -/
theorem C10_reverse_terminates_witness :
    (25 - 0 ≤ 25) ∧
    reverseLoopFuel 25 alphabetBytes 0 25 =
      some (reverseLoop alphabetBytes 0 25) :=
  ⟨by decide, C10_reverse_terminates 25 alphabetBytes 0 25 (by decide)⟩
